import Mathlib

/-!
Verification of the `dynqueue` crate (src/lib.rs, src/tests.rs): a dynamically
extendable work queue driven through rayon's `UnindexedProducer` protocol
(`split` / `fold_with`), with a `DynQueueHandle` that lets consumer code push
new items into the queue being drained.

The shallow embedding models each queue backing as a `List α` (index 0 is the
front of the `Vec`/`VecDeque`/`SegQueue`), with the backing-specific operations
collected in a `QueueModel` record mirroring the Rust `Queue<T>` trait.
Panics are modelled as `Option.none` / `Except.error`.
-/

set_option maxRecDepth 10000

namespace DynQueue

/-- Mirror of the Rust trait `Queue<T>`; the backing container state is a
`List α`.  `splitOff` returns `some (remaining, removed)` or `none` for a
panic. -/
structure QueueModel (α : Type) where
  push : List α → α → List α
  pop : List α → Option α × List α
  len : List α → Nat
  splitOff : List α → Nat → Option (List α × List α)

/-- `impl Queue<T> for RwLock<Vec<T>>`: `push` appends, `pop` removes the last
element (`Vec::pop`), `split_off(at)` keeps `[0, at)` and returns `[at, len)`,
panicking when `at > len`. -/
def vecModel (α : Type) : QueueModel α where
  push l v := l ++ [v]
  pop l := (l.getLast?, l.dropLast)
  len l := l.length
  splitOff l n := if n ≤ l.length then some (l.take n, l.drop n) else none

/-- `impl Queue<T> for RwLock<VecDeque<T>>`: `push` is `push_back`, `pop` is
`pop_front`, `split_off(at)` keeps `[0, at)` and returns `[at, len)`,
panicking when `at > len`. -/
def dequeModel (α : Type) : QueueModel α where
  push l v := l ++ [v]
  pop l := (l.head?, l.tail)
  len l := l.length
  splitOff l n := if n ≤ l.length then some (l.take n, l.drop n) else none

/-- `impl Queue<T> for SegQueue<T>`: FIFO push/pop; `split_off(size)` pops up
to `size` elements from the front into a fresh queue and never panics. -/
def segModel (α : Type) : QueueModel α where
  push l v := l ++ [v]
  pop l := (l.head?, l.tail)
  len l := l.length
  splitOff l n := some (l.drop n, l.take n)

/-- `DynQueueHandle::enqueue`: push the job onto the shared queue. -/
def enqueue (m : QueueModel α) (q : List α) (job : α) : List α :=
  m.push q job

/-- `UnindexedProducer::split` for `DynQueue`: read the length; if `len >= 2`
split off `len / 2`, wrapping the removed half as a new queue; otherwise
return the queue unchanged with no second producer.  `none` models a panic
inside `split_off`. -/
def split (m : QueueModel α) (q : List α) : Option (List α × Option (List α)) :=
  if 2 ≤ m.len q then
    match m.splitOff q (m.len q / 2) with
    | some (r, out) => some (r, some out)
    | none => none
  else
    some (q, none)

/-- `UnindexedProducer::fold_with` for `DynQueue`.  The folder is a state `φ`
with a `consume` step and a `full` test; consumer code run inside `consume`
enqueues `enq v` onto the shared queue and keeps the delivered handle alive
past the call iff `leak v`.  `extra` counts `Arc` references to the shared
core besides the producer's own, so the `Arc::strong_count` read by the
assertion is `1 + extra`.  Results: `none` is fuel exhaustion (the Rust loop
just keeps running), `some (.error s)` a panic, `some (.ok (folder, q, extra))`
a normal return with the final queue state and reference surplus. -/
def foldWith (m : QueueModel α) (consume : φ → α → φ) (enq : α → List α)
    (full : φ → Bool) (leak : α → Bool) :
    Nat → List α → φ → Nat → Option (Except String (φ × List α × Nat))
  | 0, _, _, _ => none
  | fuel + 1, q, folder, extra =>
    match m.pop q with
    | (some v, q₁) =>
      let folder₁ := consume folder v
      let q₂ := (enq v).foldl m.push q₁
      let extra₁ := extra + (if leak v then 1 else 0)
      if full folder₁ then some (Except.ok (folder₁, q₂, extra₁))
      else foldWith m consume enq full leak fuel q₂ folder₁ extra₁
    | (none, _) =>
      if 1 + extra = 1 then some (Except.ok (folder, q, extra))
      else some (Except.error "Stale Handle")

/-- The enqueue rule of `tests.rs::handle_queue`: on consuming `v` the callback
enqueues `11` once for each of `v % 2 = 0`, `v % 3 = 0`, `v % 4 = 0`, and
enqueues `5` then `17` when `v = 11`. -/
def handleQueueEnq (v : ℕ) : List ℕ :=
  (if v % 2 = 0 then [11] else []) ++ (if v % 3 = 0 then [11] else []) ++
    (if v % 4 = 0 then [11] else []) ++ (if v = 11 then [5, 17] else [])

/-- `tests.rs::get_input`. -/
def getInput : List ℕ :=
  [1, 2, 3, 4, 5, 6, 7, 8, 9, 10, 11, 12, 13, 14, 15, 16, 17, 18, 19, 20, 21]

/-- `tests.rs::get_expected`, the fixed precomputed multiset (as a sorted
list). -/
def getExpected : List ℕ :=
  [1, 2, 3, 4, 5, 5, 5, 5, 5, 5, 5, 5, 5, 5, 5, 5, 5, 5, 5, 5, 5, 5, 5, 5, 5, 5, 5, 5, 6, 7,
    8, 9, 10, 11, 11, 11, 11, 11, 11, 11, 11, 11, 11, 11, 11, 11, 11, 11, 11, 11, 11, 11, 11,
    11, 11, 11, 12, 13, 14, 15, 16, 17, 17, 17, 17, 17, 17, 17, 17, 17, 17, 17, 17, 17, 17, 17,
    17, 17, 17, 17, 17, 17, 17, 17, 17, 18, 19, 20, 21]

/-- Sequentially draining `getInput` through `fold_with` under the
`handle_queue` callback (collecting folder, never full, no leaked handles),
over the `RwLock<Vec>` backing. -/
def cascadeDrain : Option (Except String (List ℕ × List ℕ × ℕ)) :=
  foldWith (vecModel ℕ) (fun acc v => acc ++ [v]) handleQueueEnq
    (fun _ => false) (fun _ => false) 200 getInput [] 0

/-- The list of items delivered to the folder by `cascadeDrain`. -/
def cascadeDelivered : List ℕ :=
  match cascadeDrain with
  | some (Except.ok (d, _, _)) => d
  | _ => []

/-- A snapshot of a whole parallel computation: the queues of all live
producers (each producer owns the queue of its own `QueueCore`), and the
items delivered to consumer code so far. -/
structure SysState (α : Type) where
  queues : List (List α)
  delivered : List α

/-- One scheduler-visible step of the computation, at the granularity of a
single `split` call or a single `pop`-and-consume iteration of `fold_with`.
`f v` is the deterministic list of items the consumer enqueues through the
delivered handle while consuming `v`; they land in the same queue the item
was popped from.  A `fold_with` call is a run of consecutive `consume` steps
on one index, so any sequential interleaving of `split` and `fold_with`
calls is a chain of these steps. -/
inductive SysStep (m : QueueModel α) (f : α → List α) :
    SysState α → SysState α → Prop
  | split (s : SysState α) (i : Nat) (q r out : List α)
      (hq : s.queues.get? i = some q)
      (hs : DynQueue.split m q = some (r, some out)) :
      SysStep m f s ⟨(s.queues.set i r) ++ [out], s.delivered⟩
  | consume (s : SysState α) (i : Nat) (q : List α) (v : α) (q₁ : List α)
      (hq : s.queues.get? i = some q)
      (hpop : m.pop q = (some v, q₁)) :
      SysStep m f s
        ⟨s.queues.set i ((f v).foldl m.push q₁), s.delivered ++ [v]⟩

/-- Total contents of all live queues, as a multiset. -/
def Qsum (qs : List (List α)) : Multiset α :=
  (qs.map fun q => (q : Multiset α)).sum

/-- All items the rule `f` enqueued while the items of `l` were consumed. -/
def Fsum (f : α → List α) (l : List α) : Multiset α :=
  (l.map fun v => ((f v : List α) : Multiset α)).sum

/-- The conservation invariant: delivered plus still-queued items equal the
initial items plus everything enqueued so far. -/
def Inv (f : α → List α) (init : List α) (s : SysState α) : Prop :=
  (s.delivered : Multiset α) + Qsum s.queues =
    (init : Multiset α) + Fsum f s.delivered

/-- The contract the three backings share: `pop`, `push` and `split_off`
never lose or duplicate an item. -/
structure QueueLaws (m : QueueModel α) : Prop where
  pop_some : ∀ q v q₁, m.pop q = (some v, q₁) →
    (q : Multiset α) = v ::ₘ (q₁ : Multiset α)
  push_sound : ∀ q v, ((m.push q v : List α) : Multiset α) = v ::ₘ (q : Multiset α)
  splitOff_sound : ∀ q n r out, m.splitOff q n = some (r, out) →
    (r : Multiset α) + (out : Multiset α) = (q : Multiset α)

theorem coe_append_singleton (q : List α) (v : α) :
    ((q ++ [v] : List α) : Multiset α) = v ::ₘ (q : Multiset α) := by
  have h : ((q ++ [v] : List α) : Multiset α) = (q : Multiset α) + ([v] : List α) := rfl
  rw [h, add_comm, Multiset.coe_singleton, Multiset.singleton_add]

theorem vecLaws (α : Type) : QueueLaws (vecModel α) := by
  refine ⟨?_, ?_, ?_⟩
  · intro q v q₁ h
    rw [vecModel, Prod.mk.injEq] at h
    obtain ⟨h₁, h₂⟩ := h
    subst h₂
    conv_lhs => rw [← List.dropLast_append_getLast? v h₁]
    exact coe_append_singleton _ _
  · intro q v
    exact coe_append_singleton q v
  · intro q n r out h
    simp only [vecModel] at h
    split_ifs at h with hn
    · rw [Option.some.injEq, Prod.mk.injEq] at h
      obtain ⟨h₁, h₂⟩ := h
      subst h₁; subst h₂
      have h : ((q.take n ++ q.drop n : List α) : Multiset α) = (q : Multiset α) := by
        rw [List.take_append_drop]
      exact h

theorem dequeLaws (α : Type) : QueueLaws (dequeModel α) := by
  refine ⟨?_, ?_, ?_⟩
  · intro q v q₁ h
    cases q with
    | nil => exact absurd h (by simp [dequeModel])
    | cons a t =>
      rw [dequeModel, Prod.mk.injEq] at h
      obtain ⟨h₁, h₂⟩ := h
      simp only [List.head?_cons, Option.some.injEq] at h₁
      simp only [List.tail_cons] at h₂
      subst h₁; subst h₂
      rfl
  · intro q v
    exact coe_append_singleton q v
  · intro q n r out h
    simp only [dequeModel] at h
    split_ifs at h with hn
    · rw [Option.some.injEq, Prod.mk.injEq] at h
      obtain ⟨h₁, h₂⟩ := h
      subst h₁; subst h₂
      have h : ((q.take n ++ q.drop n : List α) : Multiset α) = (q : Multiset α) := by
        rw [List.take_append_drop]
      exact h

theorem segLaws (α : Type) : QueueLaws (segModel α) := by
  refine ⟨?_, ?_, ?_⟩
  · intro q v q₁ h
    cases q with
    | nil => exact absurd h (by simp [segModel])
    | cons a t =>
      rw [segModel, Prod.mk.injEq] at h
      obtain ⟨h₁, h₂⟩ := h
      simp only [List.head?_cons, Option.some.injEq] at h₁
      simp only [List.tail_cons] at h₂
      subst h₁; subst h₂
      rfl
  · intro q v
    exact coe_append_singleton q v
  · intro q n r out h
    rw [segModel, Option.some.injEq, Prod.mk.injEq] at h
    obtain ⟨h₁, h₂⟩ := h
    subst h₁; subst h₂
    have h : ((q.drop n ++ q.take n : List α) : Multiset α) =
        ((q.take n ++ q.drop n : List α) : Multiset α) := by
      show (Multiset.ofList (q.drop n) + Multiset.ofList (q.take n) : Multiset α) = _
      rw [add_comm]; rfl
    rw [show ((q.drop n : List α) : Multiset α) + ((q.take n : List α) : Multiset α) =
      ((q.drop n ++ q.take n : List α) : Multiset α) from rfl, h, List.take_append_drop]

theorem Qsum_nil : Qsum ([] : List (List α)) = 0 := rfl

theorem Qsum_cons (q : List α) (qs : List (List α)) :
    Qsum (q :: qs) = (q : Multiset α) + Qsum qs := by
  simp [Qsum]

theorem Qsum_append_singleton (qs : List (List α)) (q : List α) :
    Qsum (qs ++ [q]) = Qsum qs + (q : Multiset α) := by
  simp [Qsum]

theorem Qsum_eq_zero (qs : List (List α)) (h : ∀ q ∈ qs, q = []) :
    Qsum qs = 0 := by
  induction qs with
  | nil => rfl
  | cons a t ih =>
    rw [Qsum_cons, h a (by simp), ih fun q hq => h q (by simp [hq])]
    rfl

theorem Qsum_set (qs : List (List α)) (i : Nat) (q x : List α)
    (h : qs.get? i = some q) :
    Qsum (qs.set i x) + (q : Multiset α) = Qsum qs + (x : Multiset α) := by
  induction qs generalizing i with
  | nil => simp at h
  | cons a t ih =>
    cases i with
    | zero =>
      simp only [List.get?_cons_zero, Option.some.injEq] at h
      subst h
      simp only [List.set_cons_zero, Qsum_cons]
      abel
    | succ j =>
      simp only [List.get?_cons_succ] at h
      simp only [List.set_cons_succ, Qsum_cons]
      have hj := ih j h
      rw [add_assoc, hj, ← add_assoc]

theorem Fsum_nil (f : α → List α) : Fsum f [] = 0 := rfl

theorem Fsum_append_singleton (f : α → List α) (l : List α) (v : α) :
    Fsum f (l ++ [v]) = Fsum f l + ((f v : List α) : Multiset α) := by
  simp [Fsum]

theorem foldl_push_sound {m : QueueModel α} (hm : QueueLaws m) :
    ∀ (l q : List α),
      ((l.foldl m.push q : List α) : Multiset α) = (q : Multiset α) + (l : Multiset α)
  | [], q => by simp
  | a :: t, q => by
    rw [List.foldl_cons, foldl_push_sound hm t (m.push q a), hm.push_sound q a]
    show Multiset.cons a (Multiset.ofList q) + _ = _ + Multiset.cons a (Multiset.ofList t)
    rw [Multiset.cons_add, Multiset.add_cons]

theorem split_sound {m : QueueModel α} (hm : QueueLaws m) (q r out : List α)
    (h : split m q = some (r, some out)) :
    (r : Multiset α) + (out : Multiset α) = (q : Multiset α) := by
  unfold split at h
  split_ifs at h with hlen
  · cases hsp : m.splitOff q (m.len q / 2) with
    | none => rw [hsp] at h; exact absurd h (by simp)
    | some p =>
      obtain ⟨r₁, out₁⟩ := p
      rw [hsp] at h
      simp only [Option.some.injEq, Prod.mk.injEq] at h
      obtain ⟨h₁, h₂⟩ := h
      subst h₁
      rw [← Option.some.injEq] at h₂
      cases h₂
      exact hm.splitOff_sound _ _ _ _ hsp
  · simp at h

theorem sysStep_preserves {m : QueueModel α} (hm : QueueLaws m)
    {f : α → List α} {init : List α} {s t : SysState α}
    (hstep : SysStep m f s t) (hinv : Inv f init s) : Inv f init t := by
  cases hstep with
  | split i q r out hq hs =>
    have hsum := split_sound hm q r out hs
    have hset := Qsum_set s.queues i q r hq
    simp only [Inv] at hinv ⊢
    simp only [Qsum_append_singleton]
    have hcancel :
        Qsum (s.queues.set i r) + (out : Multiset α) + (q : Multiset α) =
          Qsum s.queues + (q : Multiset α) := by
      calc Qsum (s.queues.set i r) + (out : Multiset α) + (q : Multiset α)
          = Qsum (s.queues.set i r) + (q : Multiset α) + (out : Multiset α) := by abel
        _ = Qsum s.queues + (r : Multiset α) + (out : Multiset α) := by rw [hset]
        _ = Qsum s.queues + ((r : Multiset α) + (out : Multiset α)) := by rw [add_assoc]
        _ = Qsum s.queues + (q : Multiset α) := by rw [hsum]
    rw [add_right_cancel hcancel]
    exact hinv
  | consume i q v q₁ hq hpop =>
    have hqv := hm.pop_some q v q₁ hpop
    have hfold := foldl_push_sound hm (f v) q₁
    have hset := Qsum_set s.queues i q ((f v).foldl m.push q₁) hq
    rw [hqv, hfold] at hset
    simp only [Inv] at hinv ⊢
    rw [coe_append_singleton, Fsum_append_singleton]
    have h₁ :
        Qsum (s.queues.set i ((f v).foldl m.push q₁)) + {v} + (q₁ : Multiset α) =
          (Qsum s.queues + ((f v : List α) : Multiset α)) + (q₁ : Multiset α) := by
      calc Qsum (s.queues.set i ((f v).foldl m.push q₁)) + {v} + (q₁ : Multiset α)
          = Qsum (s.queues.set i ((f v).foldl m.push q₁)) + ({v} + (q₁ : Multiset α)) := by
            rw [add_assoc]
        _ = Qsum (s.queues.set i ((f v).foldl m.push q₁)) + (v ::ₘ (q₁ : Multiset α)) := by
            rw [Multiset.singleton_add]
        _ = Qsum s.queues + ((q₁ : Multiset α) + ((f v : List α) : Multiset α)) := hset
        _ = (Qsum s.queues + ((f v : List α) : Multiset α)) + (q₁ : Multiset α) := by abel
    have key := add_right_cancel h₁
    calc (v ::ₘ (s.delivered : Multiset α)) +
          Qsum (s.queues.set i ((f v).foldl m.push q₁))
        = ({v} + (s.delivered : Multiset α)) +
            Qsum (s.queues.set i ((f v).foldl m.push q₁)) := by
          rw [Multiset.singleton_add]
      _ = (s.delivered : Multiset α) +
            (Qsum (s.queues.set i ((f v).foldl m.push q₁)) + {v}) := by abel
      _ = (s.delivered : Multiset α) +
            (Qsum s.queues + ((f v : List α) : Multiset α)) := by rw [key]
      _ = ((s.delivered : Multiset α) + Qsum s.queues) +
            ((f v : List α) : Multiset α) := by rw [add_assoc]
      _ = ((init : Multiset α) + Fsum f s.delivered) +
            ((f v : List α) : Multiset α) := by rw [hinv]
      _ = (init : Multiset α) + (Fsum f s.delivered + ((f v : List α) : Multiset α)) := by
          rw [add_assoc]

/-- **C1**: for every initial multiset of items and every deterministic rule
`f` by which the consumer enqueues new items via the delivered handle, any
sequential interleaving of `split` calls and `fold_with` pop-consume
iterations that drains every queue to empty delivers exactly the initial
items plus all dynamically enqueued items — none lost, none duplicated. -/
theorem drain_exact_delivery {α : Type} (m : QueueModel α) (hm : QueueLaws m)
    (f : α → List α) (init : List α) (s : SysState α)
    (hrun : Relation.ReflTransGen (SysStep m f) ⟨[init], []⟩ s)
    (hdone : ∀ q ∈ s.queues, q = []) :
    (s.delivered : Multiset α) = (init : Multiset α) + Fsum f s.delivered := by
  have hinv : Inv f init s := by
    clear hdone
    induction hrun with
    | refl => simp [Inv, Qsum_cons, Qsum_nil, Fsum_nil]
    | tail hsteps hstep ih => exact sysStep_preserves hm hstep ih
  simp only [Inv] at hinv
  rw [Qsum_eq_zero s.queues hdone, add_zero] at hinv
  exact hinv

/-- Witness for C1: a three-step run over the `RwLock<Vec>` backing from
`[1, 2]` with the rule that enqueues `4` upon consuming `2`, delivering the
multiset `{1, 2, 4}`. -/
theorem drain_exact_delivery_witness :
    (([2, 4, 1] : List ℕ) : Multiset ℕ) =
      (([1, 2] : List ℕ) : Multiset ℕ) +
        Fsum (fun v => if v = 2 then [4] else []) [2, 4, 1] := by
  have h01 : SysStep (vecModel ℕ) (fun v => if v = 2 then [4] else [])
      ⟨[[1, 2]], []⟩ ⟨[[1, 4]], [2]⟩ :=
    SysStep.consume ⟨[[1, 2]], []⟩ 0 [1, 2] 2 [1] rfl rfl
  have h12 : SysStep (vecModel ℕ) (fun v => if v = 2 then [4] else [])
      ⟨[[1, 4]], [2]⟩ ⟨[[1]], [2, 4]⟩ :=
    SysStep.consume ⟨[[1, 4]], [2]⟩ 0 [1, 4] 4 [1] rfl rfl
  have h23 : SysStep (vecModel ℕ) (fun v => if v = 2 then [4] else [])
      ⟨[[1]], [2, 4]⟩ ⟨[[]], [2, 4, 1]⟩ :=
    SysStep.consume ⟨[[1]], [2, 4]⟩ 0 [1] 1 [] rfl rfl
  have hrun : Relation.ReflTransGen
      (SysStep (vecModel ℕ) (fun v => if v = 2 then [4] else []))
      ⟨[[1, 2]], []⟩ ⟨[[]], [2, 4, 1]⟩ :=
    Relation.ReflTransGen.tail
      (Relation.ReflTransGen.tail
        (Relation.ReflTransGen.tail Relation.ReflTransGen.refl h01) h12) h23
  exact drain_exact_delivery (vecModel ℕ) (vecLaws ℕ)
    (fun v => if v = 2 then [4] else []) [1, 2] ⟨[[]], [2, 4, 1]⟩ hrun
    (by intro q hq; simpa using hq)

/-- **C2**: when `fold_with` observes the queue empty (`pop` returns `None`),
it asserts the reference count on the shared core is exactly 1: if any handle
or other sharer is still alive (`extra ≠ 0`) it panics with "Stale Handle",
and if the count is exactly 1 it returns the folder normally. -/
theorem fold_empty_refcount_check {α φ : Type} (m : QueueModel α)
    (consume : φ → α → φ) (enq : α → List α) (full : φ → Bool)
    (leak : α → Bool) (fuel : Nat) (q q₁ : List α) (folder : φ) (extra : Nat)
    (hpop : m.pop q = (none, q₁)) :
    foldWith m consume enq full leak (fuel + 1) q folder extra =
      (if extra = 0 then some (Except.ok (folder, q, extra))
        else some (Except.error "Stale Handle")) := by
  show (match m.pop q with
    | (some v, q₁) =>
      let folder₁ := consume folder v
      let q₂ := (enq v).foldl m.push q₁
      let extra₁ := extra + (if leak v then 1 else 0)
      if full folder₁ then some (Except.ok (folder₁, q₂, extra₁))
      else foldWith m consume enq full leak fuel q₂ folder₁ extra₁
    | (none, _) =>
      if 1 + extra = 1 then some (Except.ok (folder, q, extra))
      else some (Except.error "Stale Handle")) = _
  rw [hpop]
  by_cases h : extra = 0
  · subst h; rfl
  · rw [if_neg h]
    show (if 1 + extra = 1 then some (Except.ok (folder, q, extra))
      else some (Except.error "Stale Handle")) = _
    rw [if_neg (by omega)]

/-- Witness for C2: on an empty queue, `fold_with` returns the folder when the
producer is the sole owner, and panics "Stale Handle" when one extra
reference is alive. -/
theorem fold_empty_refcount_check_witness :
    foldWith (vecModel ℕ) (fun (acc : List ℕ) v => acc ++ [v]) (fun _ => [])
        (fun _ => false) (fun _ => false) 1 [] [7] 0 =
      some (Except.ok (([7] : List ℕ), ([] : List ℕ), 0)) ∧
    foldWith (vecModel ℕ) (fun (acc : List ℕ) v => acc ++ [v]) (fun _ => [])
        (fun _ => false) (fun _ => false) 1 [] [7] 1 =
      some (Except.error "Stale Handle") := by
  constructor
  · rw [fold_empty_refcount_check (vecModel ℕ) _ _ _ _ 0 [] [] [7] 0 rfl]
    rfl
  · rw [fold_empty_refcount_check (vecModel ℕ) _ _ _ _ 0 [] [] [7] 1 rfl]
    rfl

/-- **C6**: if the folder reports full after consuming an item, `fold_with`
stops immediately and returns that folder; the queue as left by that very
consume step (the unpopped remainder plus anything enqueued during it) is
untouched and undelivered. -/
theorem fold_full_stops {α φ : Type} (m : QueueModel α)
    (consume : φ → α → φ) (enq : α → List α) (full : φ → Bool)
    (leak : α → Bool) (fuel : Nat) (q q₁ : List α) (v : α) (folder : φ)
    (extra : Nat) (hpop : m.pop q = (some v, q₁))
    (hfull : full (consume folder v) = true) :
    foldWith m consume enq full leak (fuel + 1) q folder extra =
      some (Except.ok (consume folder v, (enq v).foldl m.push q₁,
        extra + (if leak v then 1 else 0))) := by
  show (match m.pop q with
    | (some v, q₁) =>
      let folder₁ := consume folder v
      let q₂ := (enq v).foldl m.push q₁
      let extra₁ := extra + (if leak v then 1 else 0)
      if full folder₁ then some (Except.ok (folder₁, q₂, extra₁))
      else foldWith m consume enq full leak fuel q₂ folder₁ extra₁
    | (none, _) =>
      if 1 + extra = 1 then some (Except.ok (folder, q, extra))
      else some (Except.error "Stale Handle")) = _
  rw [hpop]
  show (if full (consume folder v) then _ else _) = _
  rw [hfull]
  rfl

/-- Witness for C6: over the FIFO backing, a folder that is full after one
item stops after consuming `7`, leaving `[9]` in the queue undelivered. -/
theorem fold_full_stops_witness :
    foldWith (dequeModel ℕ) (fun (acc : List ℕ) v => acc ++ [v]) (fun _ => [])
        (fun acc => acc.length ≥ 1) (fun _ => false) 5 [7, 9] [] 0 =
      some (Except.ok (([7] : List ℕ), ([9] : List ℕ), 0)) := by
  rw [fold_full_stops (dequeModel ℕ) _ _ _ _ 4 [7, 9] [9] 7 [] 0 rfl rfl]
  rfl

/-- **C3** (amended): `split` returns `(original, none)` when the length `L`
is below 2; when `L ≥ 2` it calls `split_off(⌊L/2⌋)` and wraps the removed
part as the new producer's queue: for the `Vec`/`VecDeque` backings the new
queue receives the last `L - ⌊L/2⌋` items (leaving `⌊L/2⌋` behind), while
for the `SegQueue` backing it receives the first `⌊L/2⌋` items (leaving
`L - ⌊L/2⌋` behind). -/
theorem split_spec {α : Type} (q : List α) :
    (q.length < 2 →
      split (vecModel α) q = some (q, none) ∧
      split (dequeModel α) q = some (q, none) ∧
      split (segModel α) q = some (q, none)) ∧
    (2 ≤ q.length →
      split (vecModel α) q =
          some (q.take (q.length / 2), some (q.drop (q.length / 2))) ∧
      split (dequeModel α) q =
          some (q.take (q.length / 2), some (q.drop (q.length / 2))) ∧
      split (segModel α) q =
          some (q.drop (q.length / 2), some (q.take (q.length / 2))) ∧
      (q.take (q.length / 2)).length = q.length / 2 ∧
      (q.drop (q.length / 2)).length = q.length - q.length / 2) := by
  constructor
  · intro h
    refine ⟨?_, ?_, ?_⟩ <;>
      simp [split, vecModel, dequeModel, segModel, Nat.not_le.mpr h]
  · intro h
    have hle : q.length / 2 ≤ q.length := Nat.div_le_self _ _
    refine ⟨?_, ?_, ?_, ?_, ?_⟩
    · simp [split, vecModel, h, hle]
    · simp [split, dequeModel, h, hle]
    · simp [split, segModel, h]
    · rw [List.length_take]; omega
    · rw [List.length_drop]

/-- Witness for C3: `[9]` is too short to split, and splitting `[1, 2, 3, 4]`
moves two items into the new queue for every backing. -/
theorem split_spec_witness :
    (split (vecModel ℕ) [9] = some ([9], none) ∧
      split (dequeModel ℕ) [9] = some ([9], none) ∧
      split (segModel ℕ) [9] = some ([9], none)) ∧
    (split (vecModel ℕ) [1, 2, 3, 4] = some ([1, 2], some [3, 4]) ∧
      split (dequeModel ℕ) [1, 2, 3, 4] = some ([1, 2], some [3, 4]) ∧
      split (segModel ℕ) [1, 2, 3, 4] = some ([3, 4], some [1, 2]) ∧
      (([1, 2, 3, 4] : List ℕ).take 2).length = 2 ∧
      (([1, 2, 3, 4] : List ℕ).drop 2).length = 2) :=
  ⟨(split_spec [9]).1 (by decide), (split_spec [1, 2, 3, 4]).2 (by decide)⟩

/-- **C3** as stated is false on the `RwLock<Vec>` backing: splitting the
queue `[1, 2, 3]` (length `L = 3`) moves 2 items into the brand-new queue,
not `⌊L/2⌋ = 1`. -/
theorem split_counterexample :
    split (vecModel ℕ) [1, 2, 3] = some ([1], some [2, 3]) ∧
      ([2, 3] : List ℕ).length ≠ 3 / 2 := by decide

/-- **C4** (amended): for the `Vec` and `VecDeque` backings `split_off(n)`
panics when `n` exceeds the length `L`, and otherwise keeps the first `n`
items, returning the remaining `L - n` in the new queue; only the `SegQueue`
backing returns `min(n, L)` removed items leaving `L - min(n, L)` behind. -/
theorem splitOff_lengths {α : Type} (q : List α) (n : Nat) :
    (n ≤ q.length →
      (vecModel α).splitOff q n = some (q.take n, q.drop n) ∧
      (dequeModel α).splitOff q n = some (q.take n, q.drop n) ∧
      (q.take n).length = n ∧
      (q.drop n).length = q.length - n) ∧
    (q.length < n →
      (vecModel α).splitOff q n = none ∧
      (dequeModel α).splitOff q n = none) ∧
    ((segModel α).splitOff q n = some (q.drop n, q.take n) ∧
      (q.take n).length = min n q.length ∧
      (q.drop n).length = q.length - min n q.length) := by
  refine ⟨fun h => ⟨?_, ?_, ?_, ?_⟩, fun h => ⟨?_, ?_⟩, ?_, ?_, ?_⟩
  · simp [vecModel, h]
  · simp [dequeModel, h]
  · rw [List.length_take]; omega
  · rw [List.length_drop]
  · simp [vecModel, Nat.not_le.mpr h]
  · simp [dequeModel, Nat.not_le.mpr h]
  · simp [segModel]
  · rw [List.length_take]
  · rw [List.length_drop]; omega

/-- Witness for C4: `split_off 2` on `[1, 2, 3]` keeps `[1, 2]` and returns
`[3]` for the locking backings, and `split_off 5` panics on them while the
`SegQueue` backing returns everything. -/
theorem splitOff_lengths_witness :
    ((vecModel ℕ).splitOff [1, 2, 3] 2 = some ([1, 2], [3]) ∧
      (dequeModel ℕ).splitOff [1, 2, 3] 2 = some ([1, 2], [3]) ∧
      (([1, 2, 3] : List ℕ).take 2).length = 2 ∧
      (([1, 2, 3] : List ℕ).drop 2).length = 3 - 2) ∧
    ((vecModel ℕ).splitOff [1, 2, 3] 5 = none ∧
      (dequeModel ℕ).splitOff [1, 2, 3] 5 = none) :=
  ⟨(splitOff_lengths [1, 2, 3] 2).1 (by decide),
    (splitOff_lengths [1, 2, 3] 5).2.1 (by decide)⟩

/-- **C4** as stated is false on the `RwLock<Vec>` backing: `split_off 1` on
`[1, 2, 3]` returns 2 removed items, not `min(1, 3) = 1`, and leaves 1
behind, not `3 - min(1, 3) = 2`. -/
theorem splitOff_counterexample_c4 :
    (vecModel ℕ).splitOff [1, 2, 3] 1 = some ([1], [2, 3]) ∧
      ([2, 3] : List ℕ).length ≠ min 1 3 := by decide

/-- **C5** (amended): draining `[1..21]` to completion under the
`handle_queue` callback delivers exactly the fixed precomputed multiset
`get_expected`, which has 89 elements (not 87): the drain returns the folder
normally with an empty queue and the delivered multiset equals
`getExpected`. -/
theorem cascade_scenario :
    cascadeDrain = some (Except.ok (cascadeDelivered, [], 0)) ∧
    (cascadeDelivered : Multiset ℕ) = (getExpected : Multiset ℕ) ∧
    cascadeDelivered.length = 89 ∧
    getExpected.length = 89 :=
  ⟨rfl, by decide, by decide, by decide⟩

/-- **C5** as stated is false only in the claimed size: the fixed precomputed
set `get_expected` (and the drained multiset) has 89 elements, not 87. -/
theorem cascade_counterexample :
    getExpected.length = 89 ∧ (89 : ℕ) ≠ 87 := by decide

/-- **C7** (amended): whenever `split_off` succeeds, the removed and the
remaining queues partition the original contents by occurrences: their
multiset sum equals the original multiset (so each occurrence lands on
exactly one side), for every backing. -/
theorem splitOff_partition {α : Type} (q : List α) (n : Nat)
    (r out : List α) :
    ((vecModel α).splitOff q n = some (r, out) →
      (r : Multiset α) + (out : Multiset α) = (q : Multiset α)) ∧
    ((dequeModel α).splitOff q n = some (r, out) →
      (r : Multiset α) + (out : Multiset α) = (q : Multiset α)) ∧
    ((segModel α).splitOff q n = some (r, out) →
      (r : Multiset α) + (out : Multiset α) = (q : Multiset α)) :=
  ⟨(vecLaws α).splitOff_sound q n r out,
    (dequeLaws α).splitOff_sound q n r out,
    (segLaws α).splitOff_sound q n r out⟩

/-- Witness for C7: splitting `[1, 2, 3]` at 1 partitions its contents into
`{1}` and `{2, 3}` on the locking backings (and `{2, 3}` / `{1}` on the
`SegQueue` backing). -/
theorem splitOff_partition_witness :
    (([1] : List ℕ) : Multiset ℕ) + (([2, 3] : List ℕ) : Multiset ℕ) =
      (([1, 2, 3] : List ℕ) : Multiset ℕ) ∧
    (([2, 3] : List ℕ) : Multiset ℕ) + (([1] : List ℕ) : Multiset ℕ) =
      (([1, 2, 3] : List ℕ) : Multiset ℕ) :=
  ⟨(splitOff_partition [1, 2, 3] 1 [1] [2, 3]).1 (by decide),
    (splitOff_partition [1, 2, 3] 1 [2, 3] [1]).2.2 (by decide)⟩

/-- **C7** as stated is false for queues with duplicated values: splitting
`[5, 5]` at 1 yields remaining `[5]` and removed `[5]`, and the item `5`
appears in both, so the two results are not disjoint. -/
theorem splitOff_counterexample_c7 :
    (segModel ℕ).splitOff [5, 5] 1 = some ([5], [5]) ∧
      (vecModel ℕ).splitOff [5, 5] 1 = some ([5], [5]) ∧
      (5 : ℕ) ∈ ([5] : List ℕ) := by decide

/-- **C8**: `pop` returns `None` exactly on the empty queue; otherwise the
`RwLock<Vec>` backing removes and returns the most recently pushed item
(LIFO top) and the `RwLock<VecDeque>` backing removes and returns the front
item (FIFO). -/
theorem pop_discipline {α : Type} :
    (∀ q : List α, ((vecModel α).pop q).1 = none ↔ q = []) ∧
    (∀ q : List α, ((dequeModel α).pop q).1 = none ↔ q = []) ∧
    (∀ (l : List α) (a : α),
      (vecModel α).pop ((vecModel α).push l a) = (some a, l)) ∧
    (∀ (a : α) (t : List α), (dequeModel α).pop (a :: t) = (some a, t)) ∧
    (vecModel α).pop ([] : List α) = (none, []) ∧
    (dequeModel α).pop ([] : List α) = (none, []) := by
  refine ⟨?_, ?_, ?_, ?_, rfl, rfl⟩
  · intro q
    simp [vecModel, List.getLast?_eq_none_iff]
  · intro q
    simp [dequeModel]
  · intro l a
    simp [vecModel, List.getLast?_concat, List.dropLast_concat]
  · intro a t
    simp [dequeModel]

/-- **C9**: `Handle::enqueue` appends the item to the very queue shared with
the producer: the queue's length grows by one, the previous contents are
unchanged (the item goes to the back), the call is total (never fails), and
the producer's next pop on a previously empty queue delivers it. -/
theorem enqueue_appends {α : Type} (q : List α) (v : α) :
    enqueue (vecModel α) q v = q ++ [v] ∧
    enqueue (dequeModel α) q v = q ++ [v] ∧
    enqueue (segModel α) q v = q ++ [v] ∧
    (enqueue (vecModel α) q v).length = q.length + 1 ∧
    (enqueue (dequeModel α) q v).length = q.length + 1 ∧
    (enqueue (segModel α) q v).length = q.length + 1 ∧
    (vecModel α).pop (enqueue (vecModel α) [] v) = (some v, []) ∧
    (dequeModel α).pop (enqueue (dequeModel α) [] v) = (some v, []) := by
  refine ⟨rfl, rfl, rfl, ?_, ?_, ?_, ?_, rfl⟩
  · simp [enqueue, vecModel]
  · simp [enqueue, dequeModel]
  · simp [enqueue, segModel]
  · simp [enqueue, vecModel]

/-- **C10**: called with `n` strictly greater than the current length, the
`RwLock<Vec>` and `RwLock<VecDeque>` backings' `split_off` panics, while the
`SegQueue` backing returns all remaining items and leaves the queue empty. -/
theorem splitOff_overflow {α : Type} (q : List α) (n : Nat)
    (h : q.length < n) :
    (vecModel α).splitOff q n = none ∧
    (dequeModel α).splitOff q n = none ∧
    (segModel α).splitOff q n = some ([], q) := by
  refine ⟨?_, ?_, ?_⟩
  · simp [vecModel, Nat.not_le.mpr h]
  · simp [dequeModel, Nat.not_le.mpr h]
  · simp [segModel, List.drop_eq_nil_of_le (Nat.le_of_lt h),
      List.take_of_length_le (Nat.le_of_lt h)]

/-- Witness for C10: `split_off 5` on the three-element queue `[1, 2, 3]`
panics on both locking backings and returns all three items on the
`SegQueue` backing. -/
theorem splitOff_overflow_witness :
    (vecModel ℕ).splitOff [1, 2, 3] 5 = none ∧
    (dequeModel ℕ).splitOff [1, 2, 3] 5 = none ∧
    (segModel ℕ).splitOff [1, 2, 3] 5 = some ([], [1, 2, 3]) :=
  splitOff_overflow [1, 2, 3] 5 (by decide)

end DynQueue

section Scratch

open DynQueue

example : (vecModel ℕ).pop [1, 2, 3] = (some 3, [1, 2]) := by decide

example : (dequeModel ℕ).pop [1, 2, 3] = (some 1, [2, 3]) := by decide

example : split (vecModel ℕ) [1, 2, 3] = some ([1], some [2, 3]) := by decide

example : split (segModel ℕ) [1, 2, 3] = some ([2, 3], some [1]) := by decide

example : (vecModel ℕ).splitOff [1, 2, 3] 5 = none := by decide

example : (segModel ℕ).splitOff [1, 2, 3] 5 = some ([], [1, 2, 3]) := by decide

example :
    foldWith (dequeModel ℕ) (fun acc v => acc ++ [v])
      (fun v => if v = 2 then [4] else []) (fun _ => false) (fun _ => false)
      10 [1, 2, 3] [] 0 = some (Except.ok ([1, 2, 3, 4], [], 0)) := rfl

end Scratch
